import Mathlib

/-
Verification of the WAL append-block core (tempodb/wal/append_block.go):
a shallow embedding of the data model (records, block metadata, filenames)
and the operations (write, find, clear, replay, the once-guarded read open),
followed by theorems checking the specified properties.

Strings from the Go source are modelled as lists of runes (List Char);
byte identifiers as lists of natural numbers compared lexicographically.
Filesystem and codec effects are passed in explicitly as parameters
(open results, page decode outcomes), mirroring the call structure of the
source.  Components of the repository that are referenced by the source
file but whose bodies are not in the sample (the page codec, the backend
encoding enum, UUID printing and parsing, record sorting) are modelled
from the spec; each such definition carries a doc comment saying so.
-/

/-- Strings are modelled as lists of runes, matching how the Go source
measures data-encoding length with a rune conversion. -/
abbrev Str := List Char

/-- Helper turning a Lean string literal into the rune-list model. -/
def str (s : String) : Str := s.data

/-- Record identifiers are byte sequences. -/
abbrev ID := List Nat

/-- Modelled from the spec (section 3): byte-lexicographic strict order on
identifiers, as computed by bytes.Compare in the missing common package. -/
def idLess : ID → ID → Bool
  | [], [] => false
  | [], _ :: _ => true
  | _ :: _, [] => false
  | a :: as, b :: bs => if a < b then true else if b < a then false else idLess as bs

/-- Non-strict byte-lexicographic order, the negation of the reversed strict one. -/
def idLe (a b : ID) : Bool := !(idLess b a)

/-- A record locates one page in the data file: identifier, start offset,
byte length (common.Record). -/
structure Record where
  id : ID
  start : Nat
  length : Nat
deriving DecidableEq, Repr

/-- The index is sorted when adjacent identifiers are non-decreasing. -/
def recsSorted : List Record → Bool
  | [] => true
  | [_] => true
  | a :: b :: rest => idLe a.id b.id && recsSorted (b :: rest)

/-- Records are contiguous from offset off when each starts exactly where
the previous one ended. -/
def contiguousFrom : Nat → List Record → Bool
  | _, [] => true
  | off, r :: rest => (r.start == off) && contiguousFrom (off + r.length) rest

/-- Start offsets strictly increase along the list. -/
def startsStrictInc : List Record → Bool
  | [] => true
  | [_] => true
  | a :: b :: rest => (a.start < b.start : Bool) && startsStrictInc (b :: rest)

/-- Insert one record before the first existing record whose identifier is
not smaller; existing records with an equal identifier arrived later, so
ties keep arrival order. -/
def insertRecord (r : Record) : List Record → List Record
  | [] => [r]
  | x :: xs => if idLe r.id x.id then r :: x :: xs else x :: insertRecord r xs

/-- Modelled from the spec (section 4.2): common.SortRecords sorts the index
ascending by identifier bytes, stably.  Realised as insertion sort. -/
def SortRecords : List Record → List Record
  | [] => []
  | r :: rest => insertRecord r (SortRecords rest)

/-- Go strings.Split on a single separator character: splitting the empty
string yields one empty field, a trailing separator yields a trailing
empty field. -/
def splitOnChar (sep : Char) : Str → List Str
  | [] => [[]]
  | c :: rest =>
    let r := splitOnChar sep rest
    if c = sep then [] :: r
    else
      match r with
      | [] => [[c]]
      | h :: t => (c :: h) :: t

/-- Modelled from the spec (section 3): a block identifier is a 128-bit UUID,
represented by its 32 hexadecimal digits. -/
def UUID := { l : List (Fin 16) // l.length = 32 }

instance : DecidableEq UUID := Subtype.instDecidableEq

/-- Lowercase hexadecimal digit characters, as printed by the uuid package. -/
def hexDigits : Str := str "0123456789abcdef"

/-- The character for one hexadecimal digit. -/
def hexChar (x : Fin 16) : Char := hexDigits.getD x.val 'x'

/-- Parse one hexadecimal digit character, upper or lower case. -/
def parseHexChar (c : Char) : Option (Fin 16) :=
  if c = '0' then some 0 else if c = '1' then some 1
  else if c = '2' then some 2 else if c = '3' then some 3
  else if c = '4' then some 4 else if c = '5' then some 5
  else if c = '6' then some 6 else if c = '7' then some 7
  else if c = '8' then some 8 else if c = '9' then some 9
  else if c = 'a' ∨ c = 'A' then some 10 else if c = 'b' ∨ c = 'B' then some 11
  else if c = 'c' ∨ c = 'C' then some 12 else if c = 'd' ∨ c = 'D' then some 13
  else if c = 'e' ∨ c = 'E' then some 14 else if c = 'f' ∨ c = 'F' then some 15
  else none

/-- Modelled from the spec (section 6): the canonical textual form of a UUID,
eight hex digits, hyphen, three groups of four, hyphen, twelve. -/
def uuidToString (u : UUID) : Str :=
  let d := u.val.map hexChar
  d.take 8 ++ ('-' :: ((d.drop 8).take 4 ++ ('-' :: ((d.drop 12).take 4
    ++ ('-' :: ((d.drop 16).take 4 ++ ('-' :: d.drop 20)))))))

/-- Read a run of hexadecimal digit characters. -/
def readHexDigits : Str → Option (List (Fin 16))
  | [] => some []
  | c :: rest =>
    match parseHexChar c, readHexDigits rest with
    | some d, some ds => some (d :: ds)
    | _, _ => none

/-- Package a successful digit read of length 32 into a UUID. -/
def uuidFromDigits : Option (List (Fin 16)) → Option UUID
  | some ds => if h32 : ds.length = 32 then some ⟨ds, h32⟩ else none
  | none => none

/-- Check the canonical group sizes and read the digits. -/
def uuidParseGroups : List Str → Option UUID
  | [g1, g2, g3, g4, g5] =>
    if g1.length = 8 ∧ g2.length = 4 ∧ g3.length = 4 ∧ g4.length = 4 ∧ g5.length = 12 then
      uuidFromDigits (readHexDigits (g1 ++ g2 ++ g3 ++ g4 ++ g5))
    else none
  | _ => none

/-- Modelled from the spec (section 6): uuid.Parse on the canonical
hyphenated form, five hex groups of sizes 8, 4, 4, 4, 12. -/
def uuidParse (s : Str) : Option UUID := uuidParseGroups (splitOnChar '-' s)

/-- Modelled from the spec (sections 3 and 6): the recognized page-encoding
tokens of the backend package (backend.Encoding). -/
inductive Encoding where
  | none
  | gzip
  | lz4_64k
  | lz4_256k
  | lz4_1M
  | lz4_4M
  | snappy
  | zstd
deriving DecidableEq, Repr

/-- Modelled from the spec (section 6): the textual token of each encoding,
as printed by Encoding.String. -/
def encToString : Encoding → Str
  | .none => str "none"
  | .gzip => str "gzip"
  | .lz4_64k => str "lz4-64k"
  | .lz4_256k => str "lz4-256k"
  | .lz4_1M => str "lz4-1M"
  | .lz4_4M => str "lz4-4M"
  | .snappy => str "snappy"
  | .zstd => str "zstd"

/-- Modelled from the spec (section 6): backend.ParseEncoding recognizes
exactly the tokens above. -/
def ParseEncoding (s : Str) : Option Encoding :=
  if s = str "none" then some .none
  else if s = str "gzip" then some .gzip
  else if s = str "lz4-64k" then some .lz4_64k
  else if s = str "lz4-256k" then some .lz4_256k
  else if s = str "lz4-1M" then some .lz4_1M
  else if s = str "lz4-4M" then some .lz4_4M
  else if s = str "snappy" then some .snappy
  else if s = str "zstd" then some .zstd
  else Option.none

/-- Modelled from the spec (sections 4.5 and 4.3): the codec versions that
encoding.FromVersion recognizes; the WAL pins v2 at creation and must still
replay legacy v0 and v1 files. -/
inductive Version where
  | v0
  | v1
  | v2
deriving DecidableEq, Repr

/-- Modelled from the spec (section 4.5): encoding.FromVersion resolves a
version tag, failing on anything unrecognized. -/
def FromVersion (s : Str) : Option Version :=
  if s = str "v0" then some .v0
  else if s = str "v1" then some .v1
  else if s = str "v2" then some .v2
  else Option.none

/-- Block metadata (backend.BlockMeta): identity fields plus the running
bookkeeping mutated while objects are appended. -/
structure BlockMeta where
  blockID : UUID
  tenantID : Str
  version : Str
  encoding : Encoding
  dataEncoding : Str
  totalObjects : Nat
  minID : Option ID
  maxID : Option ID
deriving DecidableEq

/-- Modelled from the spec (section 3): backend.NewBlockMeta starts with
zero objects and no identifier bounds. -/
def NewBlockMeta (tenantID : Str) (blockID : UUID) (version : Str)
    (e : Encoding) (dataEncoding : Str) : BlockMeta :=
  { blockID := blockID, tenantID := tenantID, version := version,
    encoding := e, dataEncoding := dataEncoding,
    totalObjects := 0, minID := Option.none, maxID := Option.none }

/-- Modelled from the spec (section 4.4): BlockMeta.ObjectAdded advances the
object count and expands the monotone minimum and maximum identifier bounds. -/
def BlockMeta.ObjectAdded (m : BlockMeta) (id : ID) : BlockMeta :=
  { m with
    totalObjects := m.totalObjects + 1,
    minID := some (match m.minID with
      | Option.none => id
      | some lo => if idLess id lo then id else lo),
    maxID := some (match m.maxID with
      | Option.none => id
      | some hi => if idLess hi id then id else hi) }

/-- The bare on-disk name built from the metadata fields: two, four or five
colon-separated fields depending on version and data-encoding
(fullFilename, append_block.go lines 235 to 248, before the path join). -/
def blockName (m : BlockMeta) : Str :=
  if m.version = str "v0" then
    uuidToString m.blockID ++ (':' :: m.tenantID)
  else if m.dataEncoding = [] then
    uuidToString m.blockID ++ (':' :: (m.tenantID ++ (':' :: (m.version
      ++ (':' :: encToString m.encoding)))))
  else
    uuidToString m.blockID ++ (':' :: (m.tenantID ++ (':' :: (m.version
      ++ (':' :: (encToString m.encoding ++ (':' :: m.dataEncoding)))))))

/-- Go filepath.Join of a directory and a name, for the cases used here:
an empty directory leaves the name unchanged. -/
def goFilepathJoin (dir name : Str) : Str :=
  if dir = [] then name else dir ++ ('/' :: name)

/-- The full on-disk filename: directory joined with the metadata-encoded
name (fullFilename, append_block.go lines 235 to 248). -/
def fullFilename (dir : Str) (m : BlockMeta) : Str :=
  goFilepathJoin dir (blockName m)

/-- Parse a bare WAL filename into its metadata fields
(parseFilename, append_block.go lines 263 to 300). -/
def parseFilename (name : Str) : Except String (UUID × Str × Str × Encoding × Str) :=
  let splits := splitOnChar ':' name
  if splits.length ≠ 2 ∧ splits.length ≠ 4 ∧ splits.length ≠ 5 then
    .error "unexpected number of segments"
  else
    let blockIDString := splits.getD 0 []
    let tenantID := splits.getD 1 []
    let version := if 4 ≤ splits.length then splits.getD 2 [] else str "v0"
    let encodingString := if 4 ≤ splits.length then splits.getD 3 [] else encToString .none
    let dataEncoding := if 5 ≤ splits.length then splits.getD 4 [] else []
    match uuidParse blockIDString with
    | Option.none => .error "error parsing uuid"
    | some blockID =>
      match ParseEncoding encodingString with
      | Option.none => .error "error parsing encoding"
      | some e =>
        if tenantID.length = 0 ∨ version.length = 0 then .error "missing fields"
        else .ok (blockID, tenantID, version, e, dataEncoding)

/-- A Go error value distinguishing io.EOF from other errors; a nil error
is modelled by Option.none around this type. -/
inductive GoErr where
  | eofErr
  | msg (s : String)
deriving DecidableEq, Repr

/-- Modelled from the spec (section 4.1): the outcome of one
UnmarshalObjectFromReader call on the bytes of a page: a decoded object
carrying its identifier, a clean end-of-stream signal (io.EOF), or a
decode failure. -/
inductive ObjRead where
  | obj (id : ID)
  | eofSignal
  | fail (s : String)
deriving DecidableEq, Repr

/-- Modelled from the spec (section 4.1): one page as the replay loop sees
it: the page length reported by NextPage, and the results of the first and
second object reads from the page bytes. -/
structure Page where
  len : Nat
  read1 : ObjRead
  read2 : ObjRead
deriving DecidableEq, Repr

/-- Modelled from the spec (section 4.1): what NextPage yields after the
last complete page: a clean io.EOF, or a corruption or truncation error. -/
inductive FileTail where
  | clean
  | corrupt (e : GoErr)
deriving DecidableEq, Repr

/-- The data file as the page codec presents it to replay: the complete
leading pages, then the tail condition. -/
structure WalFile where
  pages : List Page
  tail : FileTail
deriving DecidableEq, Repr

/-- The replay page walk (newAppendBlockFromFile, append_block.go lines
105 to 137): accumulate one record per good page; stop with the NextPage
error at the tail, with the first-read error when a page does not decode,
and with the second-read error when it is not io.EOF, in which case a
successfully decoded second object leaves the warning nil. -/
def replayWalk (tail : FileTail) : List Page → Nat → List Record × Option GoErr
  | [], _ =>
    match tail with
    | .clean => ([], Option.none)
    | .corrupt e => ([], some e)
  | p :: rest, currentOffset =>
    match p.read1 with
    | .eofSignal => ([], some .eofErr)
    | .fail s => ([], some (.msg s))
    | .obj id =>
      match p.read2 with
      | .obj _ => ([], Option.none)
      | .fail s => ([], some (.msg s))
      | .eofSignal =>
        let r := replayWalk tail rest (currentOffset + p.len)
        (⟨id, currentOffset, p.len⟩ :: r.1, r.2)

/-- The identifier decoded from a page whose first read succeeds. -/
def pageID (p : Page) : ID :=
  match p.read1 with
  | .obj i => i
  | _ => []

/-- A page is good when it decodes exactly one object. -/
def pageGood (p : Page) : Bool :=
  (match p.read1 with | .obj _ => true | _ => false)
    && (match p.read2 with | .eofSignal => true | _ => false)

/-- The records produced by a run of good pages starting at an offset. -/
def goodRecords : Nat → List Page → List Record
  | _, [] => []
  | off, p :: ps => ⟨pageID p, off, p.len⟩ :: goodRecords (off + p.len) ps

/-- Total byte length of a run of pages. -/
def sumLens : List Page → Nat
  | [] => 0
  | p :: ps => p.len + sumLens ps

/-- The Appender (encoding.Appender): a live writer born with an open
stream, or the replay-mode appender built from a finished record index
(encoding.NewRecordAppender), which rejects appends.  Modelled from the
spec (section 4.3). -/
inductive Appender where
  | writer (records : List Record) (dataLen : Nat)
  | replay (records : List Record)
deriving DecidableEq, Repr

/-- The record index held by the appender. -/
def Appender.records : Appender → List Record
  | .writer r _ => r
  | .replay r => r

/-- Number of records, Appender.Length. -/
def Appender.lengthRecords (ap : Appender) : Nat := ap.records.length

/-- Modelled from the spec (section 4.3): append encodes one page, writes
it, and records (identifier, offset before the write, page length); the
write outcome of the underlying stream is passed in explicitly, and the
replay-mode appender rejects the call. -/
def Appender.append (ap : Appender) (id : ID) (pageLen : Nat)
    (writeResult : Option String) : Except String Appender :=
  match ap with
  | .replay _ => .error "cannot append to replay appender"
  | .writer recs dataLen =>
    match writeResult with
    | some e => .error e
    | Option.none => .ok (.writer (recs ++ [⟨id, dataLen, pageLen⟩]) (dataLen + pageLen))

/-- Modelled from the spec (section 4.2): all records whose identifier
matches, in arrival order. -/
def Appender.RecordsForID (ap : Appender) (id : ID) : List Record :=
  ap.records.filter (fun r => r.id == id)

/-- The append block (AppendBlock struct): metadata, resolved codec
version, the two guarded file handles, the appender, and the consumed
state of the once-guard around the read open. -/
structure AppendBlock where
  meta : BlockMeta
  encVersion : Version
  appendFile : Option Unit
  appender : Appender
  filePath : Str
  readFile : Option Unit
  onceDone : Bool
deriving DecidableEq

/-- The once-guarded read open (file, append_block.go lines 250 to 261):
the open attempt, whose outcome is passed in explicitly, runs only if the
guard is unconsumed and no read handle exists; the local error is nil on
every later call. -/
def AppendBlock.file (a : AppendBlock) (openResult : Except String Unit) :
    AppendBlock × Option Unit × Option String :=
  if a.onceDone then (a, a.readFile, Option.none)
  else
    match a.readFile with
    | some f => ({ a with onceDone := true }, some f, Option.none)
    | Option.none =>
      match openResult with
      | .ok f => ({ a with onceDone := true, readFile := some f }, some f, Option.none)
      | .error e => ({ a with onceDone := true }, Option.none, some e)

/-- Replay reconstruction (newAppendBlockFromFile, append_block.go lines
72 to 145): parse the name, resolve the version, open the file through the
once-guard, walk the pages, sort the records, and build a replay-mode
block; the data-reader construction on an open file with a recognized
encoding is modelled from the spec (section 4.1) as always succeeding. -/
def newAppendBlockFromFile (filename : Str) (path : Str) (env : Except String Unit)
    (content : WalFile) : Option AppendBlock × Option GoErr × Option String :=
  match parseFilename filename with
  | .error e => (Option.none, Option.none, some e)
  | .ok (blockID, tenantID, version, e, dataEncoding) =>
    match FromVersion version with
    | Option.none => (Option.none, Option.none, some "unknown version")
    | some v =>
      let b0 : AppendBlock := {
        meta := NewBlockMeta tenantID blockID version e dataEncoding,
        encVersion := v,
        appendFile := Option.none,
        appender := .replay [],
        filePath := path,
        readFile := Option.none,
        onceDone := false }
      match b0.file env with
      | (_, _, some err) => (Option.none, Option.none, some err)
      | (b1, _, Option.none) =>
        let w := replayWalk content.tail content.pages 0
        let records := SortRecords w.1
        (some { b1 with
            appender := .replay records,
            meta := { b1.meta with totalObjects := records.length } },
          w.2, Option.none)

/-- Creation of a fresh block (newAppendBlock, append_block.go lines 35 to
68): validate the data-encoding, pin codec version v2, build the metadata
and open the append file; the create and data-writer steps are modelled
from the spec (section 4.3) as succeeding, and the returned trace records
which filesystem effects happened. -/
inductive FsOp where
  | createFile (name : Str)
deriving DecidableEq

def newAppendBlock (id : UUID) (tenantID : Str) (filePath : Str) (e : Encoding)
    (dataEncoding : Str) : Except String AppendBlock × List FsOp :=
  if dataEncoding.contains ':' ∨ 32 < dataEncoding.length then
    (.error "dataEncoding is invalid", [])
  else
    match FromVersion (str "v2") with
    | Option.none => (.error "unknown version", [])
    | some v =>
      let meta := NewBlockMeta tenantID id (str "v2") e dataEncoding
      let b : AppendBlock := {
        meta := meta,
        encVersion := v,
        appendFile := some (),
        appender := .writer [] 0,
        filePath := filePath,
        readFile := Option.none,
        onceDone := false }
      (.ok b, [.createFile (fullFilename filePath meta)])

/-- Write one object (Write, append_block.go lines 147 to 154): delegate
to the appender, and only on success advance the metadata bookkeeping via
ObjectAdded. -/
def AppendBlock.Write (a : AppendBlock) (id : ID) (pageLen : Nat)
    (writeResult : Option String) : Except String AppendBlock :=
  match a.appender.append id pageLen writeResult with
  | .error e => .error e
  | .ok ap => .ok { a with appender := ap, meta := a.meta.ObjectAdded id }

/-- Point lookup (Find, append_block.go lines 197 to 215): gather the
matching records, open the read handle through the once-guard, surface an
open error, answer nil for no records, and otherwise delegate to the paged
finder, whose behavior on an open file is passed in explicitly. -/
def AppendBlock.Find (a : AppendBlock) (id : ID) (openResult : Except String Unit)
    (pagedFind : List Record → Except String (Option (List Nat))) :
    AppendBlock × Except String (Option (List Nat)) :=
  let records := a.appender.RecordsForID id
  match a.file openResult with
  | (a1, _, some e) => (a1, .error e)
  | (a1, _, Option.none) =>
    if records.length = 0 then (a1, .ok Option.none)
    else (a1, pagedFind records)

/-- The operations Clear performs, in order. -/
inductive ClearOp where
  | closeRead
  | closeWrite
  | completeAppender
  | removeFile
deriving DecidableEq, Repr

/-- Deletion (Clear, append_block.go lines 217 to 233): close whichever
handles are open, ignoring close errors, complete the appender while
discarding its error, then remove the file; only the removal outcome is
returned. -/
def AppendBlock.Clear (a : AppendBlock) (completeResult : Option String)
    (removeResult : Option String) : AppendBlock × Option String × List ClearOp :=
  let readOps := if a.readFile.isSome then [ClearOp.closeRead] else []
  let writeOps := if a.appendFile.isSome then [ClearOp.closeWrite] else []
  let a1 : AppendBlock := { a with readFile := Option.none, appendFile := Option.none }
  (a1, removeResult, readOps ++ writeOps ++ [ClearOp.completeAppender, ClearOp.removeFile])

/-- The record index of an optional block, empty when absent. -/
def blockRecords : Option AppendBlock → List Record
  | Option.none => []
  | some b => b.appender.records

/-- The all-zero UUID, used as a concrete block identifier. -/
def uuidZero : UUID := ⟨List.replicate 32 0, by decide⟩

/-- A concrete legacy two-field filename: zero UUID, tenant t. -/
def nameV0 : Str := uuidToString uuidZero ++ (':' :: str "t")

/-- A concrete fresh write-mode block used in concrete instantiations. -/
def blockW : AppendBlock :=
  { meta := NewBlockMeta (str "t") uuidZero (str "v2") Encoding.none [],
    encVersion := .v2,
    appendFile := some (),
    appender := .writer [] 0,
    filePath := [],
    readFile := Option.none,
    onceDone := false }

/-- A page decoding exactly one object with identifier 7 and length 5. -/
def pageGoodA : Page := ⟨5, .obj [7], .eofSignal⟩

/-- A structurally invalid page: a second object decodes successfully. -/
def pageTwoObj : Page := ⟨3, .obj [8], .obj [9]⟩

/-- A page whose first object decode fails. -/
def pageBadDecode : Page := ⟨4, .fail "decode failed", .eofSignal⟩

/-- A page whose first object decodes but whose second read fails with a
real decode error. -/
def pageBadSecond : Page := ⟨6, .obj [4], .fail "bad second"⟩

/-- The concrete replay content for the C9 witness: two good pages whose
identifiers arrive out of sorted order. -/
def contentC9 : WalFile :=
  ⟨[⟨5, .obj [2], .eofSignal⟩, ⟨7, .obj [1], .eofSignal⟩], .clean⟩

/-- The record index replayed from contentC9, sorted. -/
def recordsC9 : List Record := SortRecords (replayWalk contentC9.tail contentC9.pages 0).1

/-- The block replay reconstructs from contentC9. -/
def blockC9 : AppendBlock :=
  { meta := { NewBlockMeta (str "t") uuidZero (str "v0") Encoding.none []
      with totalObjects := recordsC9.length },
    encVersion := .v0,
    appendFile := Option.none,
    appender := .replay recordsC9,
    filePath := [],
    readFile := some (),
    onceDone := true }

theorem idLess_asymm : ∀ a b : ID, idLess a b = true → idLess b a = false := by
  intro a
  induction a with
  | nil => intro b _; cases b with
    | nil => rfl
    | cons x xs => rfl
  | cons x xs ih =>
    intro b h
    cases b with
    | nil => simp [idLess] at h
    | cons y ys =>
      simp only [idLess] at h ⊢
      by_cases hxy : x < y
      · have hyx : ¬ y < x := Nat.lt_asymm hxy
        simp [hxy, hyx]
      · by_cases hyx : y < x
        · simp [hxy, hyx] at h
        · simp [hxy, hyx] at h ⊢
          exact ih ys h

theorem idLe_of_not_idLess {a b : ID} (h : ¬ idLess a b = true) : idLe b a = true := by
  simp [idLe]
  simpa using h

theorem recsSorted_cons_of {x : Record} {l : List Record}
    (hl : recsSorted l = true)
    (hhead : ∀ y rest, l = y :: rest → idLe x.id y.id = true) :
    recsSorted (x :: l) = true := by
  cases l with
  | nil => rfl
  | cons y rest =>
    simp only [recsSorted, Bool.and_eq_true]
    exact ⟨hhead y rest rfl, hl⟩

theorem idLe_total_of_not {a b : ID} (h : ¬ idLe a b = true) : idLe b a = true := by
  have hba : idLess b a = true := by
    simp only [idLe, Bool.not_eq_true] at h
    cases hx : idLess b a with
    | true => rfl
    | false => rw [hx] at h; simp at h
  simp only [idLe, idLess_asymm _ _ hba, Bool.not_false]

theorem recsSorted_insertRecord (r : Record) :
    ∀ l : List Record, recsSorted l = true → recsSorted (insertRecord r l) = true := by
  intro l
  induction l with
  | nil => intro _; rfl
  | cons x xs ih =>
    intro hs
    have hxs : recsSorted xs = true := by
      cases xs with
      | nil => rfl
      | cons y ys => simp only [recsSorted, Bool.and_eq_true] at hs; exact hs.2
    simp only [insertRecord]
    by_cases hle : idLe r.id x.id = true
    · simp only [hle, if_true]
      apply recsSorted_cons_of
      · exact hs
      · intro y rest hey
        cases hey
        exact hle
    · simp only [hle, if_false]
      apply recsSorted_cons_of
      · exact ih hxs
      · intro y rest hey
        cases xs with
        | nil =>
          simp only [insertRecord] at hey
          cases hey
          exact idLe_total_of_not hle
        | cons z zs =>
          simp only [insertRecord] at hey
          by_cases hrz : idLe r.id z.id = true
          · simp only [hrz, if_true] at hey
            cases hey
            exact idLe_total_of_not hle
          · simp only [hrz, if_false] at hey
            cases hey
            simp only [recsSorted, Bool.and_eq_true] at hs
            exact hs.1

theorem recsSorted_SortRecords : ∀ l : List Record, recsSorted (SortRecords l) = true := by
  intro l
  induction l with
  | nil => rfl
  | cons r rest ih => exact recsSorted_insertRecord r _ ih

theorem insertRecord_perm (r : Record) :
    ∀ l : List Record, (insertRecord r l).Perm (r :: l) := by
  intro l
  induction l with
  | nil => simp [insertRecord]
  | cons x xs ih =>
    simp only [insertRecord]
    by_cases hle : idLe r.id x.id = true
    · simp [hle]
    · simp only [hle, if_false]
      have h1 : (x :: insertRecord r xs).Perm (x :: r :: xs) := List.Perm.cons x ih
      have h2 : (x :: r :: xs).Perm (r :: x :: xs) := List.Perm.swap r x xs
      exact h1.trans h2

theorem sortRecords_perm : ∀ l : List Record, (SortRecords l).Perm l := by
  intro l
  induction l with
  | nil => simp [SortRecords]
  | cons r rest ih =>
    exact (insertRecord_perm r (SortRecords rest)).trans (List.Perm.cons r ih)

theorem splitOnChar_no_sep (sep : Char) :
    ∀ a : Str, sep ∉ a → splitOnChar sep a = [a] := by
  intro a
  induction a with
  | nil => intro _; rfl
  | cons c rest ih =>
    intro h
    have hc : ¬ c = sep := by
      intro he; exact h (by simp [he])
    have hrest : sep ∉ rest := by
      intro hm; exact h (List.mem_cons_of_mem _ hm)
    simp only [splitOnChar, ih hrest, hc, if_false]

theorem splitOnChar_append_sep (sep : Char) :
    ∀ a r : Str, sep ∉ a →
      splitOnChar sep (a ++ sep :: r) = a :: splitOnChar sep r := by
  intro a
  induction a with
  | nil =>
    intro r _
    simp [splitOnChar]
  | cons c rest ih =>
    intro r h
    have hc : ¬ c = sep := by
      intro he; exact h (by simp [he])
    have hrest : sep ∉ rest := by
      intro hm; exact h (List.mem_cons_of_mem _ hm)
    simp only [List.cons_append, splitOnChar, List.append_eq, ih r hrest, hc, if_false]

theorem parseHexChar_hexChar : ∀ x : Fin 16, parseHexChar (hexChar x) = some x := by
  decide

theorem hexChar_ne_dash : ∀ x : Fin 16, hexChar x ≠ '-' := by decide

theorem hexChar_ne_colon : ∀ x : Fin 16, hexChar x ≠ ':' := by decide

theorem readHexDigits_map (l : List (Fin 16)) :
    readHexDigits (l.map hexChar) = some l := by
  induction l with
  | nil => rfl
  | cons x xs ih =>
    simp only [List.map_cons, readHexDigits, parseHexChar_hexChar, ih]

theorem dash_not_mem_hex_sublist {l : List (Fin 16)} {a : Str}
    (h : ∀ c ∈ a, c ∈ l.map hexChar) : '-' ∉ a := by
  intro hm
  rcases List.mem_map.mp (h '-' hm) with ⟨x, _, hx⟩
  exact hexChar_ne_dash x hx

theorem mem_hex_ne_colon {d : List (Fin 16)} {c : Char}
    (h : c ∈ d.map hexChar) : c ≠ ':' := by
  rcases List.mem_map.mp h with ⟨x, _, hx⟩
  intro he
  exact hexChar_ne_colon x (by rw [hx, he])

theorem uuidToString_no_colon (u : UUID) : ':' ∉ uuidToString u := by
  intro hm
  have hdash : ¬ (':' : Char) = '-' := by decide
  simp only [uuidToString, List.mem_append, List.mem_cons] at hm
  rcases hm with h | h | h | h | h | h | h | h | h
  · exact mem_hex_ne_colon (List.take_subset _ _ h) rfl
  · exact hdash h
  · exact mem_hex_ne_colon (List.drop_subset _ _ (List.take_subset _ _ h)) rfl
  · exact hdash h
  · exact mem_hex_ne_colon (List.drop_subset _ _ (List.take_subset _ _ h)) rfl
  · exact hdash h
  · exact mem_hex_ne_colon (List.drop_subset _ _ (List.take_subset _ _ h)) rfl
  · exact hdash h
  · exact mem_hex_ne_colon (List.drop_subset _ _ h) rfl

theorem dash_not_mem_hex {d : List (Fin 16)} {a : Str}
    (h : ∀ c ∈ a, c ∈ d.map hexChar) : '-' ∉ a := by
  intro hm
  rcases List.mem_map.mp (h '-' hm) with ⟨x, _, hx⟩
  exact hexChar_ne_dash x hx

theorem uuidParse_uuidToString (u : UUID) : uuidParse (uuidToString u) = some u := by
  have hdlen : (u.val.map hexChar).length = 32 := by
    rw [List.length_map, u.property]
  have h1 : '-' ∉ (u.val.map hexChar).take 8 :=
    dash_not_mem_hex (fun c hc => List.take_subset _ _ hc)
  have h2 : '-' ∉ ((u.val.map hexChar).drop 8).take 4 :=
    dash_not_mem_hex (fun c hc => List.drop_subset _ _ (List.take_subset _ _ hc))
  have h3 : '-' ∉ ((u.val.map hexChar).drop 12).take 4 :=
    dash_not_mem_hex (fun c hc => List.drop_subset _ _ (List.take_subset _ _ hc))
  have h4 : '-' ∉ ((u.val.map hexChar).drop 16).take 4 :=
    dash_not_mem_hex (fun c hc => List.drop_subset _ _ (List.take_subset _ _ hc))
  have h5 : '-' ∉ (u.val.map hexChar).drop 20 :=
    dash_not_mem_hex (fun c hc => List.drop_subset _ _ hc)
  have hsplit : splitOnChar '-' (uuidToString u) =
      [(u.val.map hexChar).take 8, ((u.val.map hexChar).drop 8).take 4,
       ((u.val.map hexChar).drop 12).take 4, ((u.val.map hexChar).drop 16).take 4,
       (u.val.map hexChar).drop 20] := by
    show splitOnChar '-'
        ((u.val.map hexChar).take 8 ++ ('-' :: (((u.val.map hexChar).drop 8).take 4
          ++ ('-' :: (((u.val.map hexChar).drop 12).take 4
          ++ ('-' :: (((u.val.map hexChar).drop 16).take 4
          ++ ('-' :: (u.val.map hexChar).drop 20)))))))) = _
    rw [splitOnChar_append_sep '-' _ _ h1, splitOnChar_append_sep '-' _ _ h2,
        splitOnChar_append_sep '-' _ _ h3, splitOnChar_append_sep '-' _ _ h4,
        splitOnChar_no_sep '-' _ h5]
  have hg1 : ((u.val.map hexChar).take 8).length = 8 := by
    rw [List.length_take, hdlen]; decide
  have hg2 : (((u.val.map hexChar).drop 8).take 4).length = 4 := by
    rw [List.length_take, List.length_drop, hdlen]; decide
  have hg3 : (((u.val.map hexChar).drop 12).take 4).length = 4 := by
    rw [List.length_take, List.length_drop, hdlen]; decide
  have hg4 : (((u.val.map hexChar).drop 16).take 4).length = 4 := by
    rw [List.length_take, List.length_drop, hdlen]; decide
  have hg5 : ((u.val.map hexChar).drop 20).length = 12 := by
    rw [List.length_drop, hdlen]
  have e4 : ((u.val.map hexChar).drop 16).take 4 ++ (u.val.map hexChar).drop 20
      = (u.val.map hexChar).drop 16 := by
    have h20 : (u.val.map hexChar).drop 20 = ((u.val.map hexChar).drop 16).drop 4 := by
      rw [List.drop_drop]
    rw [h20, List.take_append_drop]
  have e3 : ((u.val.map hexChar).drop 12).take 4 ++ (u.val.map hexChar).drop 16
      = (u.val.map hexChar).drop 12 := by
    have h16 : (u.val.map hexChar).drop 16 = ((u.val.map hexChar).drop 12).drop 4 := by
      rw [List.drop_drop]
    rw [h16, List.take_append_drop]
  have e2 : ((u.val.map hexChar).drop 8).take 4 ++ (u.val.map hexChar).drop 12
      = (u.val.map hexChar).drop 8 := by
    have h12 : (u.val.map hexChar).drop 12 = ((u.val.map hexChar).drop 8).drop 4 := by
      rw [List.drop_drop]
    rw [h12, List.take_append_drop]
  have e1 : (u.val.map hexChar).take 8 ++ (u.val.map hexChar).drop 8 = u.val.map hexChar :=
    List.take_append_drop 8 _
  rw [uuidParse, hsplit]
  simp only [uuidParseGroups]
  rw [if_pos ⟨hg1, hg2, hg3, hg4, hg5⟩]
  rw [List.append_assoc, List.append_assoc, List.append_assoc]
  rw [e4, e3, e2, e1, readHexDigits_map]
  simp only [uuidFromDigits]
  rw [dif_pos u.property]
  rfl

theorem ParseEncoding_encToString : ∀ e : Encoding, ParseEncoding (encToString e) = some e := by
  intro e; cases e <;> rfl

theorem encToString_no_colon : ∀ e : Encoding, ':' ∉ encToString e := by
  intro e; cases e <;> decide

theorem replayWalk_good_run (tail : FileTail) :
    ∀ (good rest : List Page) (off : Nat), (∀ p ∈ good, pageGood p = true) →
      replayWalk tail (good ++ rest) off =
        ((goodRecords off good ++ (replayWalk tail rest (off + sumLens good)).1),
          (replayWalk tail rest (off + sumLens good)).2) := by
  intro good
  induction good with
  | nil =>
    intro rest off _
    simp [goodRecords, sumLens]
  | cons p ps ih =>
    intro rest off hgood
    have hp : pageGood p = true := hgood p (List.mem_cons_self p ps)
    have hps : ∀ q ∈ ps, pageGood q = true :=
      fun q hq => hgood q (List.mem_cons_of_mem p hq)
    simp only [pageGood, Bool.and_eq_true] at hp
    rcases hp with ⟨hp1, hp2⟩
    cases hr1 : p.read1 with
    | eofSignal => rw [hr1] at hp1; simp at hp1
    | fail s => rw [hr1] at hp1; simp at hp1
    | obj i =>
      cases hr2 : p.read2 with
      | obj j => rw [hr2] at hp2; simp at hp2
      | fail s => rw [hr2] at hp2; simp at hp2
      | eofSignal =>
        show replayWalk tail (p :: (ps ++ rest)) off = _
        simp only [replayWalk, hr1, hr2]
        rw [ih rest (off + p.len) hps]
        simp only [goodRecords, sumLens, pageID, hr1]
        rw [Nat.add_assoc, List.cons_append]

theorem replayWalk_contiguous (tail : FileTail) :
    ∀ (pages : List Page) (off : Nat),
      contiguousFrom off (replayWalk tail pages off).1 = true := by
  intro pages
  induction pages with
  | nil =>
    intro off
    cases tail <;> rfl
  | cons p ps ih =>
    intro off
    cases hr1 : p.read1 with
    | eofSignal => simp [replayWalk, hr1, contiguousFrom]
    | fail s => simp [replayWalk, hr1, contiguousFrom]
    | obj i =>
      cases hr2 : p.read2 with
      | obj j => simp [replayWalk, hr1, hr2, contiguousFrom]
      | fail s => simp [replayWalk, hr1, hr2, contiguousFrom]
      | eofSignal =>
        simp only [replayWalk, hr1, hr2, contiguousFrom, Bool.and_eq_true, beq_iff_eq]
        refine ⟨by simp, ih (off + p.len)⟩

theorem startsStrictInc_of_contiguous :
    ∀ (l : List Record) (off : Nat), contiguousFrom off l = true →
      (∀ r ∈ l, 0 < r.length) → startsStrictInc l = true := by
  intro l
  induction l with
  | nil => intro off _ _; rfl
  | cons a rest ih =>
    intro off hc hpos
    cases rest with
    | nil => rfl
    | cons b rest2 =>
      simp only [contiguousFrom, Bool.and_eq_true, beq_iff_eq] at hc
      rcases hc with ⟨ha, hc2⟩
      have hc2c := hc2
      simp only [contiguousFrom, Bool.and_eq_true, beq_iff_eq] at hc2c
      have hb : b.start = off + a.length := hc2c.1
      have hapos : 0 < a.length := hpos a (List.mem_cons_self _ _)
      simp only [startsStrictInc, Bool.and_eq_true, decide_eq_true_eq]
      constructor
      · rw [ha, hb]; omega
      · exact ih (off + a.length)
          (by simpa only [contiguousFrom, Bool.and_eq_true, beq_iff_eq] using hc2)
          (fun r hr => hpos r (List.mem_cons_of_mem a hr))

theorem newAppendBlockFromFile_ok (filename path : Str) (content : WalFile)
    (bid : UUID) (t v : Str) (enc : Encoding) (de : Str) (vv : Version)
    (hp : parseFilename filename = .ok (bid, t, v, enc, de))
    (hv : FromVersion v = some vv) :
    newAppendBlockFromFile filename path (.ok ()) content =
      (some {
        meta := { NewBlockMeta t bid v enc de with
          totalObjects := (SortRecords (replayWalk content.tail content.pages 0).1).length },
        encVersion := vv,
        appendFile := Option.none,
        appender := .replay (SortRecords (replayWalk content.tail content.pages 0).1),
        filePath := path,
        readFile := some (),
        onceDone := true },
       (replayWalk content.tail content.pages 0).2, Option.none) := by
  simp only [newAppendBlockFromFile, hp, hv]
  rfl

theorem newAppendBlockFromFile_openFail (filename path : Str) (content : WalFile)
    (e : String) (bid : UUID) (t v : Str) (enc : Encoding) (de : Str) (vv : Version)
    (hp : parseFilename filename = .ok (bid, t, v, enc, de))
    (hv : FromVersion v = some vv) :
    newAppendBlockFromFile filename path (.error e) content =
      (Option.none, Option.none, some e) := by
  simp only [newAppendBlockFromFile, hp, hv]
  rfl

theorem strV0_length : (str "v0").length = 2 := rfl

theorem parseFilename_build2 (bid : UUID) (tenant : Str)
    (ht : tenant ≠ []) (htc : ':' ∉ tenant) :
    parseFilename (uuidToString bid ++ (':' :: tenant)) =
      .ok (bid, tenant, str "v0", Encoding.none, []) := by
  have hsp : splitOnChar ':' (uuidToString bid ++ (':' :: tenant))
      = [uuidToString bid, tenant] := by
    rw [splitOnChar_append_sep ':' _ _ (uuidToString_no_colon bid),
        splitOnChar_no_sep ':' _ htc]
  simp [parseFilename, hsp, uuidParse_uuidToString, ParseEncoding_encToString,
    List.length_eq_zero, ht, strV0_length]

theorem parseFilename_build4 (bid : UUID) (tenant version : Str) (enc : Encoding)
    (ht : tenant ≠ []) (htc : ':' ∉ tenant) (hv : version ≠ []) (hvc : ':' ∉ version) :
    parseFilename (uuidToString bid ++ (':' :: (tenant ++ (':' :: (version
      ++ (':' :: encToString enc)))))) = .ok (bid, tenant, version, enc, []) := by
  have hsp : splitOnChar ':' (uuidToString bid ++ (':' :: (tenant ++ (':' :: (version
      ++ (':' :: encToString enc)))))) = [uuidToString bid, tenant, version, encToString enc] := by
    rw [splitOnChar_append_sep ':' _ _ (uuidToString_no_colon bid),
        splitOnChar_append_sep ':' _ _ htc,
        splitOnChar_append_sep ':' _ _ hvc,
        splitOnChar_no_sep ':' _ (encToString_no_colon enc)]
  simp [parseFilename, hsp, uuidParse_uuidToString, ParseEncoding_encToString,
    List.length_eq_zero, ht, hv]

theorem parseFilename_build5 (bid : UUID) (tenant version de : Str) (enc : Encoding)
    (ht : tenant ≠ []) (htc : ':' ∉ tenant) (hv : version ≠ []) (hvc : ':' ∉ version)
    (hdc : ':' ∉ de) :
    parseFilename (uuidToString bid ++ (':' :: (tenant ++ (':' :: (version
      ++ (':' :: (encToString enc ++ (':' :: de)))))))) =
      .ok (bid, tenant, version, enc, de) := by
  have hsp : splitOnChar ':' (uuidToString bid ++ (':' :: (tenant ++ (':' :: (version
      ++ (':' :: (encToString enc ++ (':' :: de))))))))
      = [uuidToString bid, tenant, version, encToString enc, de] := by
    rw [splitOnChar_append_sep ':' _ _ (uuidToString_no_colon bid),
        splitOnChar_append_sep ':' _ _ htc,
        splitOnChar_append_sep ':' _ _ hvc,
        splitOnChar_append_sep ':' _ _ (encToString_no_colon enc),
        splitOnChar_no_sep ':' _ hdc]
  simp [parseFilename, hsp, uuidParse_uuidToString, ParseEncoding_encToString,
    List.length_eq_zero, ht, hv]

/-- C1 (amended): during replay, when the page walk hits a failure that
carries an error, namely a corrupt or truncated page stream reported by
NextPage after the good pages, a page whose first object read fails with a
decode error or yields end-of-stream instead of an object (the io.EOF is
then itself assigned as the warning), or a page whose second object read
fails with a real decode error, the walk stops there, every record from
the complete leading pages is retained, the error is returned as a
non-fatal warning, a block is still produced, and the failing page
contributes no record.  The one structural failure without an error, a
second object decoding successfully, also stops the walk and excludes the
page, but returns a nil warning (see the counterexample). -/
theorem c1_replay_partial_recovery
    (filename path : Str) (content : WalFile)
    (bid : UUID) (t v : Str) (enc : Encoding) (de : Str) (vv : Version)
    (good : List Page) (werr : GoErr)
    (hp : parseFilename filename = .ok (bid, t, v, enc, de))
    (hv : FromVersion v = some vv)
    (hgood : ∀ p ∈ good, pageGood p = true)
    (hscen : (content.pages = good ∧ content.tail = .corrupt werr) ∨
      (∃ bad rest, content.pages = good ++ bad :: rest ∧
        ((bad.read1 = .eofSignal ∧ werr = .eofErr) ∨
         (∃ s, bad.read1 = .fail s ∧ werr = .msg s) ∨
         (∃ i s, bad.read1 = .obj i ∧ bad.read2 = .fail s ∧ werr = .msg s)))) :
    ∃ b, newAppendBlockFromFile filename path (.ok ()) content =
        (some b, some werr, Option.none) ∧
      b.appender.records = SortRecords (goodRecords 0 good) := by
  have hwalk : replayWalk content.tail content.pages 0 = (goodRecords 0 good, some werr) := by
    rcases hscen with ⟨hpages, htail⟩ | ⟨bad, rest, hpages, hbad⟩
    · rw [hpages, htail]
      have hrun := replayWalk_good_run (.corrupt werr) good [] 0 hgood
      rw [List.append_nil] at hrun
      rw [hrun]
      simp [replayWalk]
    · rw [hpages]
      rw [replayWalk_good_run content.tail good (bad :: rest) 0 hgood]
      rcases hbad with ⟨h1, hwe⟩ | ⟨s, h1, hwe⟩ | ⟨i, s, h1, h2, hwe⟩
      · subst hwe
        simp [replayWalk, h1]
      · subst hwe
        simp [replayWalk, h1]
      · subst hwe
        simp [replayWalk, h1, h2]
  refine ⟨{
    meta := { NewBlockMeta t bid v enc de with
      totalObjects := (SortRecords (goodRecords 0 good)).length },
    encVersion := vv,
    appendFile := Option.none,
    appender := .replay (SortRecords (goodRecords 0 good)),
    filePath := path,
    readFile := some (),
    onceDone := true }, ?_, rfl⟩
  rw [newAppendBlockFromFile_ok filename path content bid t v enc de vv hp hv, hwalk]

/-- C1 witness: a concrete two-field filename and a file holding one good
page followed by a page whose second object read fails with a real error:
the block comes back with the single leading record and that error as the
warning. -/
theorem c1_replay_partial_recovery_witness :
    ∃ b, newAppendBlockFromFile nameV0 [] (.ok ()) ⟨[pageGoodA, pageBadSecond], .clean⟩ =
        (some b, some (.msg "bad second"), Option.none) ∧
      b.appender.records = SortRecords (goodRecords 0 [pageGoodA]) :=
  c1_replay_partial_recovery nameV0 [] ⟨[pageGoodA, pageBadSecond], .clean⟩
    uuidZero (str "t") (str "v0") Encoding.none [] Version.v0 [pageGoodA]
    (.msg "bad second") rfl rfl (by decide)
    (Or.inr ⟨pageBadSecond, [], rfl, Or.inr (Or.inr ⟨[4], "bad second", rfl, rfl, rfl⟩)⟩)

/-- C1 counterexample: a good page followed by a structurally invalid page
whose second object decodes successfully: the walk stops there and the
second record is dropped, yet the returned warning is nil, so the failure
is not returned as a warning, refuting the claim as stated for structural
violations. -/
theorem c1_counterexample_silent_structural :
    newAppendBlockFromFile nameV0 [] (.ok ()) ⟨[pageGoodA, pageTwoObj], .clean⟩ =
      (some { meta := { NewBlockMeta (str "t") uuidZero (str "v0") Encoding.none []
                with totalObjects := 1 },
              encVersion := .v0,
              appendFile := Option.none,
              appender := .replay [⟨[7], 0, 5⟩],
              filePath := [],
              readFile := some (),
              onceDone := true },
        Option.none, Option.none) := rfl

/-- C2 (amended): for every BlockMeta whose tenant id and version are
non-empty and contain no colon, whose data-encoding contains no colon and
has at most 32 runes, and which, when its version is the legacy v0 (the
two-field arity, which encodes neither encoding nor data-encoding), carries
the default none encoding and an empty data-encoding, building the on-disk
name and parsing it back returns exactly the original tenant id, block id,
version, encoding and data-encoding, across all three arities. -/
theorem c2_filename_roundtrip (m : BlockMeta)
    (htc : ':' ∉ m.tenantID) (ht : m.tenantID ≠ [])
    (hvc : ':' ∉ m.version) (hv : m.version ≠ [])
    (hdc : ':' ∉ m.dataEncoding) (hdl : m.dataEncoding.length ≤ 32)
    (hv0 : m.version = str "v0" → m.encoding = Encoding.none ∧ m.dataEncoding = []) :
    parseFilename (fullFilename [] m) =
      .ok (m.blockID, m.tenantID, m.version, m.encoding, m.dataEncoding) := by
  have hname : fullFilename [] m = blockName m := by
    simp [fullFilename, goFilepathJoin]
  rw [hname]
  by_cases hm : m.version = str "v0"
  · obtain ⟨henc, hde⟩ := hv0 hm
    rw [blockName, if_pos hm, hm, henc, hde]
    exact parseFilename_build2 m.blockID m.tenantID ht htc
  · rw [blockName, if_neg hm]
    by_cases hdee : m.dataEncoding = []
    · rw [if_pos hdee, hdee]
      exact parseFilename_build4 m.blockID m.tenantID m.version m.encoding ht htc hv hvc
    · rw [if_neg hdee]
      exact parseFilename_build5 m.blockID m.tenantID m.version m.dataEncoding m.encoding
        ht htc hv hvc hdc

/-- C2 witness: a concrete five-field metadata round trip. -/
theorem c2_filename_roundtrip_witness :
    parseFilename (fullFilename [] (NewBlockMeta (str "acme") uuidZero (str "v2")
        Encoding.gzip (str "proto"))) =
      .ok ((NewBlockMeta (str "acme") uuidZero (str "v2") Encoding.gzip (str "proto")).blockID,
        (NewBlockMeta (str "acme") uuidZero (str "v2") Encoding.gzip (str "proto")).tenantID,
        (NewBlockMeta (str "acme") uuidZero (str "v2") Encoding.gzip (str "proto")).version,
        (NewBlockMeta (str "acme") uuidZero (str "v2") Encoding.gzip (str "proto")).encoding,
        (NewBlockMeta (str "acme") uuidZero (str "v2") Encoding.gzip (str "proto")).dataEncoding) :=
  c2_filename_roundtrip (NewBlockMeta (str "acme") uuidZero (str "v2") Encoding.gzip (str "proto"))
    (by decide) (by decide) (by decide) (by decide) (by decide) (by decide)
    (fun h => absurd h (by decide))

/-- C2 counterexample: metadata that meets every constraint stated in the
claim, a valid UUID, non-empty colon-free tenant id and version, a
recognized gzip encoding and an empty data-encoding, yet version v0 selects
the two-field name, which drops the encoding; parsing returns the default
none encoding instead of gzip, so the round trip fails. -/
theorem c2_counterexample_v0_encoding_lost :
    (NewBlockMeta (str "t") uuidZero (str "v0") Encoding.gzip []).encoding = Encoding.gzip ∧
    parseFilename (fullFilename [] (NewBlockMeta (str "t") uuidZero (str "v0") Encoding.gzip [])) =
      .ok (uuidZero, str "t", str "v0", Encoding.none, []) ∧
    Encoding.none ≠ Encoding.gzip :=
  ⟨rfl, rfl, by decide⟩

/-- C3 (amended): replay returns no fatal error exactly when the filename
parses, the parsed version is a recognized codec version, and the data
file opens; a block is produced exactly when there is no fatal error.  The
claims two stated cases miss the third fatal case, an unrecognized version
in a filename that parses. -/
theorem c3_fatal_characterization (filename path : Str) (env : Except String Unit)
    (content : WalFile) :
    ((newAppendBlockFromFile filename path env content).2.2 = Option.none ↔
      ((∃ bid t v enc de vv, parseFilename filename = .ok (bid, t, v, enc, de) ∧
        FromVersion v = some vv) ∧ env = .ok ())) ∧
    ((newAppendBlockFromFile filename path env content).1 = Option.none ↔
      (newAppendBlockFromFile filename path env content).2.2 ≠ Option.none) := by
  rcases hpf : parseFilename filename with e | ⟨bid, t, v, enc, de⟩
  · have hres : newAppendBlockFromFile filename path env content =
        (Option.none, Option.none, some e) := by
      simp only [newAppendBlockFromFile, hpf]
    rw [hres]
    constructor
    · constructor
      · intro h; simp at h
      · rintro ⟨⟨bid, t, v, enc, de, vv, hp2, hv2⟩, _⟩
        simp at hp2
    · simp
  · cases hfv : FromVersion v with
    | none =>
      have hres : newAppendBlockFromFile filename path env content =
          (Option.none, Option.none, some "unknown version") := by
        simp only [newAppendBlockFromFile, hpf, hfv]
      rw [hres]
      constructor
      · constructor
        · intro h; simp at h
        · rintro ⟨⟨bid2, t2, v2, enc2, de2, vv2, hp2, hv2⟩, _⟩
          simp only [Except.ok.injEq, Prod.mk.injEq] at hp2
          obtain ⟨h1, h2, h3, h4, h5⟩ := hp2
          rw [← h3, hfv] at hv2
          simp at hv2
      · simp
    | some vv =>
      cases env with
      | error e =>
        rw [newAppendBlockFromFile_openFail filename path content e bid t v enc de vv hpf hfv]
        constructor
        · constructor
          · intro h; simp at h
          · rintro ⟨_, habs⟩
            simp at habs
        · simp
      | ok u =>
        cases u
        rw [newAppendBlockFromFile_ok filename path content bid t v enc de vv hpf hfv]
        constructor
        · constructor
          · intro _; exact ⟨⟨bid, t, v, enc, de, vv, rfl, hfv⟩, rfl⟩
          · intro _; rfl
        · simp

/-- C3 witness: a parseable two-field name with an openable file yields no
fatal error, instantiating the characterization. -/
theorem c3_fatal_characterization_witness :
    (newAppendBlockFromFile nameV0 [] (.ok ()) ⟨[], .clean⟩).2.2 = Option.none :=
  (c3_fatal_characterization nameV0 [] (.ok ()) ⟨[], .clean⟩).1.mpr
    ⟨⟨uuidZero, str "t", str "v0", Encoding.none, [], Version.v0, rfl, rfl⟩, rfl⟩

/-- C3 counterexample: the filename parses (version segments are not
validated by the parser) and the file opens, yet replay fails fatally with
no block because FromVersion rejects v9, a third fatal case beyond the two
stated. -/
theorem c3_counterexample_unknown_version :
    parseFilename (uuidToString uuidZero ++ (':' :: (str "t" ++ (':' :: (str "v9"
        ++ (':' :: str "none")))))) = .ok (uuidZero, str "t", str "v9", Encoding.none, []) ∧
    newAppendBlockFromFile (uuidToString uuidZero ++ (':' :: (str "t" ++ (':' :: (str "v9"
        ++ (':' :: str "none")))))) [] (.ok ()) ⟨[], .clean⟩ =
      (Option.none, Option.none, some "unknown version") :=
  ⟨rfl, rfl⟩

/-- C4: evaluation of replay on a file whose first page decodes a second
object (a structural violation): the walk stops, the page and everything
after it are dropped, and both the warning and fatal error are nil: the
code assigns the nil error of the successful second decode as the warning,
so the violation is silently swallowed instead of reported. -/
theorem c4_multi_object_page_silent_drop :
    newAppendBlockFromFile nameV0 [] (.ok ()) ⟨[pageTwoObj, pageGoodA], .clean⟩ =
      (some { meta := NewBlockMeta (str "t") uuidZero (str "v0") Encoding.none [],
              encVersion := .v0,
              appendFile := Option.none,
              appender := .replay [],
              filePath := [],
              readFile := some (),
              onceDone := true },
        Option.none, Option.none) ∧
    replayWalk FileTail.clean [pageTwoObj, pageGoodA] 0 = ([], Option.none) :=
  ⟨rfl, rfl⟩

/-- C5: on a write-mode block, if the underlying append fails, Write
returns that error and yields no updated block, so the metadata
bookkeeping is left un-advanced for that call; if it succeeds, Write
returns the block with the record appended and the metadata advanced
through ObjectAdded, counting one more object. -/
theorem c5_write_bookkeeping (a : AppendBlock) (recs : List Record) (dlen : Nat)
    (id : ID) (pageLen : Nat) (h : a.appender = .writer recs dlen) :
    (∀ e, a.Write id pageLen (some e) = .error e) ∧
    (∃ b, a.Write id pageLen Option.none = .ok b ∧
      b.meta = a.meta.ObjectAdded id ∧
      b.meta.totalObjects = a.meta.totalObjects + 1 ∧
      b.appender = .writer (recs ++ [⟨id, dlen, pageLen⟩]) (dlen + pageLen)) := by
  constructor
  · intro e
    simp [AppendBlock.Write, Appender.append, h]
  · simp only [AppendBlock.Write, Appender.append, h]
    exact ⟨_, rfl, rfl, rfl, rfl⟩

/-- C5 witness: on the concrete fresh block, a failing append surfaces the
error, and a successful append counts one object. -/
theorem c5_write_bookkeeping_witness :
    blockW.Write [3] 10 (some "disk full") = .error "disk full" ∧
    ∃ b, blockW.Write [3] 10 Option.none = .ok b ∧ b.meta.totalObjects = 1 := by
  have h := c5_write_bookkeeping blockW [] 0 [3] 10 rfl
  refine ⟨h.1 "disk full", ?_⟩
  rcases h.2 with ⟨b, hb, hm, ht, hap⟩
  exact ⟨b, hb, by rw [ht]; rfl⟩

/-- C6 (amended): Find on an identifier with no records answers a nil
payload and nil error, provided the once-guarded read open does not fail
on this very call; an open failure is surfaced ahead of the empty-records
check (see the counterexample). -/
theorem c6_find_absent_ok (a : AppendBlock) (id : ID) (openResult : Except String Unit)
    (pagedFind : List Record → Except String (Option (List Nat)))
    (hrec : a.appender.RecordsForID id = [])
    (hopen : (a.file openResult).2.2 = Option.none) :
    (a.Find id openResult pagedFind).2 = .ok Option.none := by
  rcases hq : a.file openResult with ⟨a1, f, err⟩
  have herr : err = Option.none := by rw [hq] at hopen; exact hopen
  subst herr
  simp [AppendBlock.Find, hq, hrec]

/-- C6 witness: the concrete fresh block with a successful open and an
identifier never written answers nil payload, nil error. -/
theorem c6_find_absent_ok_witness :
    (blockW.Find [1] (.ok ()) (fun _ => .ok Option.none)).2 = .ok Option.none :=
  c6_find_absent_ok blockW [1] (.ok ()) (fun _ => .ok Option.none) rfl rfl

/-- C6 counterexample: the identifier has no records, yet Find surfaces
the read-open failure as an error, because the open-error check precedes
the empty-records check; absence is an error on this input, refuting the
claim as stated. -/
theorem c6_counterexample_open_failure :
    blockW.appender.RecordsForID [1] = [] ∧
    (blockW.Find [1] (.error "open failed") (fun _ => .ok Option.none)).2 =
      .error "open failed" :=
  ⟨rfl, rfl⟩

/-- C7: Clear always nils out both handles, performs the close of each
handle only when it was open, always completes the appender and removes
the file, and returns exactly the removal outcome, for every completion
outcome, so completion and close failures are suppressed. -/
theorem c7_clear_only_remove_error (a : AppendBlock)
    (completeResult removeResult : Option String) :
    (a.Clear completeResult removeResult).2.1 = removeResult ∧
    (a.Clear completeResult removeResult).1.readFile = Option.none ∧
    (a.Clear completeResult removeResult).1.appendFile = Option.none ∧
    ClearOp.removeFile ∈ (a.Clear completeResult removeResult).2.2 ∧
    ClearOp.completeAppender ∈ (a.Clear completeResult removeResult).2.2 ∧
    (ClearOp.closeRead ∈ (a.Clear completeResult removeResult).2.2 ↔
      a.readFile.isSome = true) ∧
    (ClearOp.closeWrite ∈ (a.Clear completeResult removeResult).2.2 ↔
      a.appendFile.isSome = true) := by
  refine ⟨rfl, rfl, rfl, ?_, ?_, ?_, ?_⟩
  · simp [AppendBlock.Clear]
  · simp [AppendBlock.Clear]
  · by_cases hr : a.readFile.isSome <;> simp [AppendBlock.Clear, hr]
  · by_cases hw : a.appendFile.isSome <;> simp [AppendBlock.Clear, hw]

/-- C8: at block creation, a 32-rune colon-free data-encoding passes
validation and yields a block, a 33-rune one is rejected, and any
data-encoding containing a colon is rejected, in both rejection cases with
an invalid-input error and no file created. -/
theorem c8_dataEncoding_validation (id : UUID) (tenantID filePath : Str)
    (e : Encoding) (s : Str) :
    (s.length = 32 → s.contains ':' = false →
      ∃ b, (newAppendBlock id tenantID filePath e s).1 = .ok b) ∧
    (s.length = 33 →
      (newAppendBlock id tenantID filePath e s).1 = .error "dataEncoding is invalid" ∧
      (newAppendBlock id tenantID filePath e s).2 = []) ∧
    (s.contains ':' = true →
      (newAppendBlock id tenantID filePath e s).1 = .error "dataEncoding is invalid" ∧
      (newAppendBlock id tenantID filePath e s).2 = []) := by
  refine ⟨?_, ?_, ?_⟩
  · intro h32 hnc
    have hcond : ¬(s.contains ':' = true ∨ 32 < s.length) := by
      rw [h32, hnc]
      simp
    simp only [newAppendBlock, if_neg hcond]
    exact ⟨_, rfl⟩
  · intro h33
    have hcond : (s.contains ':' = true ∨ 32 < s.length) := Or.inr (by rw [h33]; omega)
    simp only [newAppendBlock, if_pos hcond]
    exact ⟨trivial, trivial⟩
  · intro hc
    have hcond : (s.contains ':' = true ∨ 32 < s.length) := Or.inl hc
    simp only [newAppendBlock, if_pos hcond]
    exact ⟨trivial, trivial⟩

/-- C8 witness: concrete 32-rune acceptance, 33-rune rejection, and
colon rejection. -/
theorem c8_dataEncoding_validation_witness :
    (∃ b, (newAppendBlock uuidZero (str "t") [] Encoding.none
      (List.replicate 32 'a')).1 = .ok b) ∧
    (newAppendBlock uuidZero (str "t") [] Encoding.none
      (List.replicate 33 'a')).1 = .error "dataEncoding is invalid" ∧
    (newAppendBlock uuidZero (str "t") [] Encoding.none (str "a:b")).1 =
      .error "dataEncoding is invalid" := by
  refine ⟨?_, ?_, ?_⟩
  · exact (c8_dataEncoding_validation uuidZero (str "t") [] Encoding.none
      (List.replicate 32 'a')).1 (by decide) (by decide)
  · exact ((c8_dataEncoding_validation uuidZero (str "t") [] Encoding.none
      (List.replicate 33 'a')).2.1 (by decide)).1
  · exact ((c8_dataEncoding_validation uuidZero (str "t") [] Encoding.none
      (str "a:b")).2.2 (by decide)).1

/-- C9: whenever replay produces a block, its record index is the sorted
permutation of the arrival-order walk records, whose byte ranges are
contiguous from offset zero, and, whenever every page length is positive,
arrival-order start offsets strictly increase. -/
theorem c9_replay_index_invariant (filename path : Str) (env : Except String Unit)
    (content : WalFile) (b : AppendBlock) (w : Option GoErr) (f : Option String)
    (hres : newAppendBlockFromFile filename path env content = (some b, w, f)) :
    b.appender.records = SortRecords (replayWalk content.tail content.pages 0).1 ∧
    recsSorted b.appender.records = true ∧
    b.appender.records.Perm (replayWalk content.tail content.pages 0).1 ∧
    contiguousFrom 0 (replayWalk content.tail content.pages 0).1 = true ∧
    ((∀ r ∈ (replayWalk content.tail content.pages 0).1, 0 < r.length) →
      startsStrictInc (replayWalk content.tail content.pages 0).1 = true) := by
  rcases hpf : parseFilename filename with e | ⟨bid, t, v, enc, de⟩
  · simp only [newAppendBlockFromFile, hpf] at hres
    simp at hres
  · cases hfv : FromVersion v with
    | none =>
      simp only [newAppendBlockFromFile, hpf, hfv] at hres
      simp at hres
    | some vv =>
      cases env with
      | error e =>
        rw [newAppendBlockFromFile_openFail filename path content e bid t v enc de vv hpf hfv]
          at hres
        simp at hres
      | ok u =>
        cases u
        rw [newAppendBlockFromFile_ok filename path content bid t v enc de vv hpf hfv] at hres
        have h1 : b.appender.records = SortRecords (replayWalk content.tail content.pages 0).1 := by
          have h2 := congrArg (fun x => blockRecords x.1) hres
          simp only [blockRecords, Appender.records] at h2
          exact h2.symm
        refine ⟨h1, ?_, ?_, replayWalk_contiguous _ _ _, ?_⟩
        · rw [h1]; exact recsSorted_SortRecords _
        · rw [h1]; exact sortRecords_perm _
        · intro hpos
          exact startsStrictInc_of_contiguous _ 0 (replayWalk_contiguous _ _ _) hpos

/-- C9 witness: two good out-of-identifier-order pages replay into a
sorted index over contiguous, strictly increasing arrival records. -/
theorem c9_replay_index_invariant_witness :
    recsSorted blockC9.appender.records = true ∧
    contiguousFrom 0 (replayWalk contentC9.tail contentC9.pages 0).1 = true ∧
    startsStrictInc (replayWalk contentC9.tail contentC9.pages 0).1 = true := by
  have h := c9_replay_index_invariant nameV0 [] (.ok ()) contentC9 blockC9
    Option.none Option.none rfl
  exact ⟨h.2.1, h.2.2.2.1, h.2.2.2.2 (by decide)⟩

/-- C10: the once-guard around the read open: when the first-ever call
fails to open, the error goes to that caller with a nil handle; the guard
is consumed, and every later call, whatever its open outcome would be,
returns a nil handle and a nil error without reopening. -/
theorem c10_once_guard (a : AppendBlock) (e : String)
    (h1 : a.onceDone = false) (h2 : a.readFile = Option.none) :
    (a.file (.error e)).2.1 = Option.none ∧
    (a.file (.error e)).2.2 = some e ∧
    (∀ r2 : Except String Unit,
      ((a.file (.error e)).1).file r2 = ((a.file (.error e)).1, Option.none, Option.none)) := by
  have hres : a.file (.error e) = ({ a with onceDone := true }, Option.none, some e) := by
    simp [AppendBlock.file, h1, h2]
  refine ⟨by rw [hres], by rw [hres], ?_⟩
  intro r2
  rw [hres]
  simp [AppendBlock.file, h2]

/-- C10 witness: the concrete fresh block, a failing first open, and a
second call whose open would succeed: the first caller gets the error, the
second gets nil handle and nil error. -/
theorem c10_once_guard_witness :
    (blockW.file (.error "boom")).2.2 = some "boom" ∧
    ((blockW.file (.error "boom")).1).file (.ok ()) =
      ((blockW.file (.error "boom")).1, Option.none, Option.none) :=
  ⟨(c10_once_guard blockW "boom" rfl rfl).2.1,
   (c10_once_guard blockW "boom" rfl rfl).2.2 (.ok ())⟩
